import Mathlib

/-!
Shallow embedding of the numerical-refinement core and its GUI-side callers
from the liquid_calc repository.

Embedded directly from source files:
  * `liquid_diffract/core/data_manip.py` : `zero_norm`, `smooth_data`
  * `liquid_calc/gui/optim_ui.py` : the q-min cut in `OptimUI.plot_data`,
    `OptimUI.minimisation_options` / `op_method` / `on_click_refine`'s
    optimizer invocation, `CompositionGroupBox.get_composition_dict`,
    and the guard logic of `OptimUI.on_click_calc_sq` / `OptimUI.on_click_refine`.

The module `core.core` (structure-factor calculation, modification functions,
real-space transform, Eggert refinement) is invoked throughout the GUI code but
its source is not part of this repository snapshot; those operations are
modelled from the specification text, and each such definition is marked
`Modelled from the spec:` in its doc comment.

Machine floats are modelled by exact rationals (the algorithms are plain
field arithmetic), except the cosine-window modification function which is
modelled over the reals since it involves the cosine.
-/

namespace LiquidCalc

/-- From `data_manip.zero_norm` (data_manip.py lines 31-37): subtracts the
first element of `int_func` from every element.  Indexing `int_func[0]` on an
empty array raises in numpy; this is modelled by returning `none`.  The second
argument is embedded exactly as in the source, where it is never read. -/
def zero_norm (int_func : List ℚ) (S_inf : ℚ) : Option (List ℚ) :=
  match int_func with
  | [] => none
  | shift :: _ => some (int_func.map (fun v => v - shift))

/-- From `data_manip.smooth_data` (data_manip.py lines 44-49).  The
Savitzky-Golay filter itself is scipy library code, taken as a parameter
`savgol`; the embedded function only reproduces the dispatch on `method`.
A Python function that falls off the end returns `None`, modelled by `none`. -/
def smooth_data (savgol : List ℚ → ℕ → ℕ → List ℚ) (data : List ℚ)
    (method : String) (window_length poly_order : ℕ) : Option (List ℚ) :=
  if method = "savitzky-golay" then some (savgol data window_length poly_order)
  else none

/-- The solver options dictionary passed to `scipy.optimize.minimize`
(optim_ui.py lines 33-38). -/
structure MinimisationOptions where
  disp : ℕ
  maxiter : ℕ
  maxfun : ℕ
  ftol : ℚ
  gtol : ℚ

/-- From `OptimUI.minimisation_options` (optim_ui.py lines 33-38). -/
def minimisation_options : MinimisationOptions :=
  ⟨0, 15000, 15000, 2.22e-8, 1e-10⟩

/-- From `OptimUI.op_method` (optim_ui.py line 41): the limited-memory BFGS
code with box constraints. -/
def op_method : String := "L-BFGS-B"

/-- Modelled from the spec: the numerical kernels of one Eggert iteration
(spec 4.4, steps 2a-2c and 3), whose implementation lives in the missing
`core.core` module.  `toR` transforms an i(Q) curve to g(r), `viol` extracts
the constraint violation below r_min, `toQ` back-transforms the violation to
Q-space, and `chi` integrates the squared violation into the chi-squared
statistic. -/
structure EggertKernels where
  toR : List ℚ → List ℚ
  viol : List ℚ → List ℚ
  toQ : List ℚ → List ℚ
  chi : List ℚ → ℚ

/-- Modelled from the spec: one body of the Eggert loop (spec 4.4 step 2):
transform i(Q) to r-space, measure the violation, back-transform it, and
subtract the correction from i(Q). -/
def eggert_step (K : EggertKernels) (int_func : List ℚ) : List ℚ :=
  List.zipWith (fun a b => a - b) int_func (K.toQ (K.viol (K.toR int_func)))

/-- Modelled from the spec: the chi-squared summary computed from an i(Q)
curve (spec 4.4 step 3): integral of the squared deviation of g(r) below
r_min. -/
def eggert_chi (K : EggertKernels) (int_func : List ℚ) : ℚ :=
  K.chi (K.viol (K.toR int_func))

/-- Modelled from the spec: `core.calc_impr_interference_func`, the Eggert
refinement entry point (spec 4.4), is not under src/.  It iterates the loop
body exactly `n_iter` times starting from the input interference function and
finally reports the refined curve together with its chi-squared. -/
def calc_impr_interference_func (K : EggertKernels) (n_iter : ℕ)
    (int_func : List ℚ) : List ℚ × ℚ :=
  let refined := (eggert_step K)^[n_iter] int_func
  (refined, eggert_chi K refined)

/-- Modelled from the spec: the scalar objective used by the density search
(spec 4.5): for a candidate density `rho`, re-derive the initial interference
function, run the full Eggert loop, and return its chi-squared.  The density
dependence of the numerical kernels and of the initial curve is abstracted
into `Krho` and `init`. -/
def density_objective (Krho : ℚ → EggertKernels) (init : ℚ → List ℚ)
    (n_iter : ℕ) (rho : ℚ) : ℚ :=
  (calc_impr_interference_func (Krho rho) n_iter (init rho)).2

/-- The argument package handed to `scipy.optimize.minimize` by
`OptimUI.on_click_refine` (optim_ui.py lines 262-265). -/
structure MinimizeCall where
  objective : ℚ → ℚ
  x0 : ℚ
  bounds : ℚ × ℚ
  options : MinimisationOptions
  method : String

/-- From `OptimUI.on_click_refine` (optim_ui.py lines 256-265): the solver is
invoked on the Eggert chi-squared objective at the initial density guess, with
the single box constraint `(lb, ub)`, the class-level options dictionary, and
the class-level method string. -/
def refine_minimize_call (Krho : ℚ → EggertKernels) (init : ℚ → List ℚ)
    (n_iter : ℕ) (rho_0 lb ub : ℚ) : MinimizeCall :=
  ⟨density_objective Krho init n_iter, rho_0, (lb, ub), minimisation_options, op_method⟩

/-- Modelled from the spec: the Eggert loop as a transition system (spec 4.4
state machine), used to express that the refinement has no hidden state: a run
relates an initial i(Q) curve to the curve obtained after exactly `n`
applications of the loop body. -/
inductive EggertRun (K : EggertKernels) : ℕ → List ℚ → List ℚ → Prop where
  | zero (int_func : List ℚ) : EggertRun K 0 int_func int_func
  | succ {n : ℕ} {a b : List ℚ} :
      EggertRun K n a b → EggertRun K (n + 1) a (eggert_step K b)

/-- A concrete instantiation of the Eggert kernels used to exercise the
transition system on explicit inputs. -/
def trivialKernels : EggertKernels :=
  ⟨id, id, id, fun l => l.sum⟩

/-- From `OptimUI.plot_data` (optim_ui.py line 155): `np.argmax` of the
boolean array `x > q`.  numpy returns the first index at which the condition
holds, `0` when it holds nowhere, and raises `ValueError` on an empty array
(modelled by `none`; the caller catches this exception). -/
def np_argmax_gt (x : List ℚ) (q : ℚ) : Option ℕ :=
  if x.isEmpty then none
  else some (if x.any (fun v => decide (q < v)) then
    x.findIdx (fun v => decide (q < v)) else 0)

/-- From `OptimUI.plot_data` (optim_ui.py lines 150-161), the q-min cut:
`fill` is `cor_y[np.argmax(cor_x_cut > qmin)]`, `cut` collects the entries of
`cor_y` at the positions where `cor_x_cut > qmin`, and the result pads `cut`
on the left with `fill` back up to the length of `cor_x_cut`.  The
`ValueError` raised by `np.argmax` on an empty array is caught in the source
(the cut is skipped), modelled by `none`. -/
def qmin_cut (cor_x_cut cor_y : List ℚ) (qmin : ℚ) : Option (List ℚ) :=
  match np_argmax_gt cor_x_cut qmin with
  | none => none
  | some k =>
    let fill := cor_y.getD k 0
    let cut := ((cor_x_cut.zip cor_y).filter (fun p => decide (qmin < p.1))).map Prod.snd
    some (List.replicate (cor_x_cut.length - cut.length) fill ++ cut)

/-- One entry of the composition table / dictionary: element symbol, atomic
number Z, ionic charge, and amount (later normalised to a proportion). -/
abbrev CompositionEntry := String × ℤ × ℤ × ℚ

/-- Python `dict.update` with a single key: replace the value in place when
the key is present, append otherwise. -/
def dict_update (d : List CompositionEntry) (e : CompositionEntry) :
    List CompositionEntry :=
  if d.any (fun x => decide (x.1 = e.1)) then
    d.map (fun x => if x.1 = e.1 then e else x)
  else d ++ [e]

/-- From `CompositionGroupBox.get_composition_dict` (optim_ui.py lines
571-589): each table row (Z, charge, n) is keyed by the element symbol looked
up from Z (`keyOfZ` models the reverse lookup in the periodic-table data) and
inserted into a dictionary; afterwards every entry's amount is divided by the
total over the dictionary. -/
def get_composition_dict (keyOfZ : ℤ → String) (rows : List (ℤ × ℤ × ℚ)) :
    List CompositionEntry :=
  let d := rows.foldl (fun d r => dict_update d (keyOfZ r.1, r.1, r.2.1, r.2.2)) []
  let n_total := (d.map (fun e => e.2.2.2)).sum
  d.map (fun e => (e.1, e.2.1, e.2.2.1, e.2.2.2 / n_total))

/-- Modelled from the spec: the composition-weighted mean form factor
⟨f⟩(Q) (spec 4.1), with `core.core` not under src/.  Each composition entry
carries its fractional proportion and its form-factor curve. -/
def mean_ff (comp : List (ℚ × (ℚ → ℚ))) (q : ℚ) : ℚ :=
  (comp.map (fun e => e.1 * e.2 q)).sum

/-- Modelled from the spec: the composition-weighted mean squared form factor
⟨f²⟩(Q) (spec 4.1). -/
def meansq_ff (comp : List (ℚ × (ℚ → ℚ))) (q : ℚ) : ℚ :=
  (comp.map (fun e => e.1 * e.2 q ^ 2)).sum

/-- Modelled from the spec: `core.calc_S_inf` is not under src/.  S∞ is a
scalar 1 in the Faber-Ziman convention and a Q-dependent composition-derived
curve in the Ashcroft-Langreth convention (spec section 3), here the ratio of
the two form-factor moments, which is the asymptotic value of the normalised
intensity in that convention. -/
def calc_S_inf (comp : List (ℚ × (ℚ → ℚ))) (q : ℚ) (sq_method : String) : ℚ :=
  if sq_method = "faber-ziman" then 1
  else meansq_ff comp q / mean_ff comp q ^ 2

/-- Modelled from the spec: `core.calc_structure_factor` is not under src/.
Per spec 4.1 the raw intensity is normalised by the composition-weighted
mean-square scattering factor of the chosen convention — ⟨f⟩² for Faber-Ziman,
⟨f²⟩ for Ashcroft-Langreth — and S∞ of that convention is added back.  The
density argument is part of the call contract but the spec's algorithm
description does not use it, so it is carried unused. -/
def calc_structure_factor (intensity : ℚ → ℚ) (comp : List (ℚ × (ℚ → ℚ)))
    (rho : ℚ) (sq_method : String) (q : ℚ) : ℚ :=
  if sq_method = "faber-ziman" then
    intensity q / mean_ff comp q ^ 2 + calc_S_inf comp q "faber-ziman"
  else
    intensity q / meansq_ff comp q + calc_S_inf comp q "ashcroft-langreth"

/-- Modelled from the spec: the cosine-window modification function of
`core.get_mod_func` (spec 4.2), which is not under src/: exactly 1 below the
window start, and a half-cosine taper from 1 at the window start down to 0 at
Qmax for Q at or above it. -/
noncomputable def get_mod_func_cosine_window (window_start q_max q : ℝ) : ℝ :=
  if q < window_start then 1
  else (1 + Real.cos (Real.pi * (q - window_start) / (q_max - window_start))) / 2

/-- From `OptimUI.on_click_calc_sq` (optim_ui.py lines 170-210).  The core
callees (`calc_structure_factor`, `calc_S_inf`, `calc_F_r`) are parameters
since their source is external to this snapshot; the embedded function
reproduces the handler's guard logic and data flow.  `window_start_text`
models the outcome of `np.float` on the window-start line edit (`none` = the
`ValueError` path).  A `none` result models the handler returning without
computing anything (and without raising). -/
def on_click_calc_sq
    (core_sq : List ℚ → List ℚ → List CompositionEntry → ℚ → String → List ℚ)
    (core_S_inf_fn : List CompositionEntry → List ℚ → ℚ)
    (core_F_r : List ℚ → List ℚ → ℚ → String → Option ℚ → List ℚ × List ℚ)
    (cor_x_cut cor_y_cut : List ℚ) (comp : List CompositionEntry)
    (mod_func : String) (window_start_text : Option ℚ) (sq_method : String)
    (rho_0 : ℚ) : Option (List ℚ × List ℚ × (List ℚ × List ℚ)) :=
  if cor_x_cut.isEmpty then none
  else if comp.isEmpty then none
  else
    match (if mod_func = "Cosine-window" then window_start_text.map some
           else some none : Option (Option ℚ)) with
    | none => none
    | some window_start =>
      let sq_y := core_sq cor_x_cut cor_y_cut comp rho_0 sq_method
      let S_inf := core_S_inf_fn comp cor_x_cut
      let int_func := sq_y.map (fun v => v - S_inf)
      some (sq_y, int_func, core_F_r cor_x_cut int_func rho_0 mod_func window_start)

/-- From `OptimUI.on_click_refine` (optim_ui.py lines 213-284).  The core
refiner is the parameter `core_impr` (rho, Q grid, i(Q), composition, r_min,
d_pq, n_iter, method, mod func, window start); the scipy density search of
the optional branch is the parameter `opt_rho`.  `window_start_text` models
`np.float` on the window-start field, `bounds_text` the parsing of the two
bound fields (`none` = `ValueError`); when the modification function is not
`Cosine-window` the handler keeps the previously stored window start.  A
`none` result models the handler returning without computing a refinement. -/
def on_click_refine
    (core_impr : ℚ → List ℚ → List ℚ → List CompositionEntry → ℚ → ℚ → ℕ →
      String → String → Option ℚ → List ℚ × ℚ)
    (opt_rho : ℚ → ℚ × ℚ → ℚ)
    (cor_x_cut int_func : List ℚ) (comp : List CompositionEntry)
    (mod_func : String) (window_start_text prev_window_start : Option ℚ)
    (sq_method : String) (rho_0 r_min : ℚ) (n_iter : ℕ)
    (opt_check : Bool) (bounds_text : Option (ℚ × ℚ)) : Option (List ℚ × ℚ) :=
  if int_func.isEmpty then none
  else
    match (if mod_func = "Cosine-window" then window_start_text.map some
           else some prev_window_start : Option (Option ℚ)) with
    | none => none
    | some window_start =>
      if comp.isEmpty then none
      else
        match (if opt_check then bounds_text.map some
               else some none : Option (Option (ℚ × ℚ))) with
        | none => none
        | some bopt =>
          let rho_temp := match bopt with
            | some b => opt_rho rho_0 b
            | none => rho_0
          some (core_impr rho_temp cor_x_cut int_func comp r_min (2.9 : ℚ)
            n_iter sq_method mod_func window_start)

/-! Theorems -/

/-- C9: for every non-empty input array, `zero_norm int_func S_inf` returns
`int_func` minus its own first element, so the first element of the result is
exactly 0, and the `S_inf` argument has no effect whatsoever on the returned
value. -/
theorem zero_norm_spec (int_func : List ℚ) (s1 s2 : ℚ) (h : int_func ≠ []) :
    ∃ r, zero_norm int_func s1 = some r
      ∧ r = int_func.map (fun v => v - int_func.headD 0)
      ∧ r.head? = some 0
      ∧ zero_norm int_func s1 = zero_norm int_func s2 := by
  obtain ⟨a, l, rfl⟩ := List.exists_cons_of_ne_nil h
  exact ⟨_, rfl, by simp [zero_norm], by simp [zero_norm], rfl⟩

/-- Concrete run of `zero_norm_spec` on the array `[3, 5]`. -/
theorem zero_norm_spec_witness :
    ∃ r, zero_norm [(3 : ℚ), 5] 1 = some r
      ∧ r = [(3 : ℚ), 5].map (fun v => v - [(3 : ℚ), 5].headD 0)
      ∧ r.head? = some 0
      ∧ zero_norm [(3 : ℚ), 5] 1 = zero_norm [(3 : ℚ), 5] 2 :=
  zero_norm_spec [(3 : ℚ), 5] 1 2 (by decide)

/-- C10: `smooth_data` applies the Savitzky-Golay filter exactly when
`method = "savitzky-golay"`; for every other method string it returns `none`
rather than raising or smoothing. -/
theorem smooth_data_dispatch (savgol : List ℚ → ℕ → ℕ → List ℚ)
    (data : List ℚ) (method : String) (window_length poly_order : ℕ)
    (h : method ≠ "savitzky-golay") :
    smooth_data savgol data method window_length poly_order = none
    ∧ smooth_data savgol data "savitzky-golay" window_length poly_order
        = some (savgol data window_length poly_order) := by
  constructor
  · simp [smooth_data, h]
  · simp [smooth_data]

/-- Concrete run of `smooth_data_dispatch` with an unsupported method
string. -/
theorem smooth_data_dispatch_witness :
    smooth_data (fun d _ _ => d) [(1 : ℚ)] "moving-average" 5 3 = none
    ∧ smooth_data (fun d _ _ => d) [(1 : ℚ)] "savitzky-golay" 5 3
        = some ((fun (d : List ℚ) (_ _ : ℕ) => d) [(1 : ℚ)] 5 3) :=
  smooth_data_dispatch (fun d _ _ => d) [(1 : ℚ)] "moving-average" 5 3 (by decide)

/-- C2: the density optimizer invocation uses exactly ftol 2.22e-8,
gtol 1e-10, 15000 max iterations, 15000 max function evaluations, the bounded
quasi-Newton method L-BFGS-B with the box constraint `(lb, ub)`, starting at
the density guess, and its scalar objective is the Eggert refiner's
chi-squared. -/
theorem refine_minimize_call_spec (Krho : ℚ → EggertKernels)
    (init : ℚ → List ℚ) (n_iter : ℕ) (rho_0 lb ub : ℚ) :
    (refine_minimize_call Krho init n_iter rho_0 lb ub).options.ftol = 2.22e-8
    ∧ (refine_minimize_call Krho init n_iter rho_0 lb ub).options.gtol = 1e-10
    ∧ (refine_minimize_call Krho init n_iter rho_0 lb ub).options.maxiter = 15000
    ∧ (refine_minimize_call Krho init n_iter rho_0 lb ub).options.maxfun = 15000
    ∧ (refine_minimize_call Krho init n_iter rho_0 lb ub).method = "L-BFGS-B"
    ∧ (refine_minimize_call Krho init n_iter rho_0 lb ub).x0 = rho_0
    ∧ (refine_minimize_call Krho init n_iter rho_0 lb ub).bounds = (lb, ub)
    ∧ ∀ rho, (refine_minimize_call Krho init n_iter rho_0 lb ub).objective rho
        = (calc_impr_interference_func (Krho rho) n_iter (init rho)).2 :=
  ⟨rfl, rfl, rfl, rfl, rfl, rfl, rfl, fun _ => rfl⟩

/-- C1: with `n_iter = 0` the Eggert refiner applies no correction step and
returns the chi-squared computed directly from the unrefined i(Q); in general
the loop body runs exactly `n_iter` times, one more application per increment,
with no early exit. -/
theorem eggert_fixed_iteration (K : EggertKernels) (n : ℕ)
    (int_func : List ℚ) :
    calc_impr_interference_func K 0 int_func = (int_func, eggert_chi K int_func)
    ∧ (calc_impr_interference_func K (n + 1) int_func).1
        = eggert_step K ((calc_impr_interference_func K n int_func).1) := by
  constructor
  · simp [calc_impr_interference_func]
  · simp [calc_impr_interference_func, Function.iterate_succ_apply']

/-- C7: the Eggert refinement transition system is deterministic — two runs
of the same length from the same interference function reach the same refined
curve and the same chi-squared, with no dependence on hidden state. -/
theorem eggert_run_deterministic (K : EggertKernels) (n : ℕ)
    (a r1 r2 : List ℚ) (h1 : EggertRun K n a r1) (h2 : EggertRun K n a r2) :
    r1 = r2 ∧ eggert_chi K r1 = eggert_chi K r2 := by
  induction h1 generalizing r2 with
  | zero _ => cases h2; exact ⟨rfl, rfl⟩
  | succ h ih =>
    cases h2 with
    | succ h2 =>
      rcases ih _ h2 with ⟨e, _⟩
      rw [e]
      exact ⟨rfl, rfl⟩

/-- Concrete run of `eggert_run_deterministic`: two one-step runs on the
curve `[1]` with the trivial kernels. -/
theorem eggert_run_deterministic_witness :
    eggert_step trivialKernels [(1 : ℚ)] = eggert_step trivialKernels [(1 : ℚ)]
    ∧ eggert_chi trivialKernels (eggert_step trivialKernels [(1 : ℚ)])
        = eggert_chi trivialKernels (eggert_step trivialKernels [(1 : ℚ)]) :=
  eggert_run_deterministic trivialKernels 1 [(1 : ℚ)] _ _
    (.succ (.zero _)) (.succ (.zero _))

/-- C8: on missing input — no cut intensity data, empty composition, or
cosine-window mode without a parsable window-start value for the S(Q)
handler; no interference function, missing window-start, or empty composition
for the refinement handler — the entry points return `none` (silently, with
no exception modelled and no new result produced). -/
theorem silent_return_on_missing_input
    (core_sq : List ℚ → List ℚ → List CompositionEntry → ℚ → String → List ℚ)
    (core_S_inf_fn : List CompositionEntry → List ℚ → ℚ)
    (core_F_r : List ℚ → List ℚ → ℚ → String → Option ℚ → List ℚ × List ℚ)
    (core_impr : ℚ → List ℚ → List ℚ → List CompositionEntry → ℚ → ℚ → ℕ →
      String → String → Option ℚ → List ℚ × ℚ)
    (opt_rho : ℚ → ℚ × ℚ → ℚ)
    (cor_x_cut cor_y_cut int_func : List ℚ) (comp : List CompositionEntry)
    (mod_func : String) (window_start_text prev_window_start : Option ℚ)
    (sq_method : String) (rho_0 r_min : ℚ) (n_iter : ℕ) (opt_check : Bool)
    (bounds_text : Option (ℚ × ℚ)) :
    (cor_x_cut = [] → on_click_calc_sq core_sq core_S_inf_fn core_F_r
      cor_x_cut cor_y_cut comp mod_func window_start_text sq_method rho_0 = none)
    ∧ (comp = [] → on_click_calc_sq core_sq core_S_inf_fn core_F_r
      cor_x_cut cor_y_cut comp mod_func window_start_text sq_method rho_0 = none)
    ∧ (mod_func = "Cosine-window" → window_start_text = none →
      on_click_calc_sq core_sq core_S_inf_fn core_F_r
      cor_x_cut cor_y_cut comp mod_func window_start_text sq_method rho_0 = none)
    ∧ (int_func = [] → on_click_refine core_impr opt_rho cor_x_cut int_func
      comp mod_func window_start_text prev_window_start sq_method rho_0 r_min
      n_iter opt_check bounds_text = none)
    ∧ (comp = [] → on_click_refine core_impr opt_rho cor_x_cut int_func
      comp mod_func window_start_text prev_window_start sq_method rho_0 r_min
      n_iter opt_check bounds_text = none)
    ∧ (mod_func = "Cosine-window" → window_start_text = none →
      on_click_refine core_impr opt_rho cor_x_cut int_func
      comp mod_func window_start_text prev_window_start sq_method rho_0 r_min
      n_iter opt_check bounds_text = none) := by
  refine ⟨?_, ?_, ?_, ?_, ?_, ?_⟩
  · intro h
    subst h
    simp [on_click_calc_sq]
  · intro h
    subst h
    simp only [on_click_calc_sq, List.isEmpty_nil, if_true]
    split <;> simp
  · intro h1 h2
    subst h1
    subst h2
    simp only [on_click_calc_sq, reduceIte, Option.map_none']
    split
    · rfl
    · split <;> simp
  · intro h
    subst h
    simp [on_click_refine]
  · intro h
    subst h
    simp only [on_click_refine]
    split
    · rfl
    · split
      · rfl
      · simp
  · intro h1 h2
    subst h1
    subst h2
    simp only [on_click_refine, reduceIte, Option.map_none']
    split <;> simp

/-- Concrete run of `silent_return_on_missing_input` with everything
missing: no data, no composition, cosine-window with no window start. -/
theorem silent_return_on_missing_input_witness :
    on_click_calc_sq (fun _ _ _ _ _ => []) (fun _ _ => 0)
      (fun _ _ _ _ _ => ([], [])) [] [] [] "Cosine-window" none
      "ashcroft-langreth" 1 = none
    ∧ on_click_refine (fun _ _ _ _ _ _ _ _ _ _ => ([], 0)) (fun r _ => r)
      [] [] [] "Cosine-window" none none "ashcroft-langreth" 1 (23/10) 5
      false none = none := by
  have h := silent_return_on_missing_input (fun _ _ _ _ _ => [])
    (fun _ _ => 0) (fun _ _ _ _ _ => ([], []))
    (fun _ _ _ _ _ _ _ _ _ _ => ([], 0)) (fun r _ => r)
    [] [] [] [] "Cosine-window" none none "ashcroft-langreth" 1 (23/10) 5
    false none
  exact ⟨h.1 rfl, h.2.2.2.1 rfl⟩

/-- C6: for a single-element composition with fractional proportion 1, a
nonvanishing form factor, and any intensity curve and positive density, the
Faber-Ziman and Ashcroft-Langreth structure factors agree at every Q point. -/
theorem single_element_fz_eq_al (intensity f : ℚ → ℚ) (rho q : ℚ)
    (hrho : 0 < rho) (hf : f q ≠ 0) :
    calc_structure_factor intensity [(1, f)] rho "faber-ziman" q
    = calc_structure_factor intensity [(1, f)] rho "ashcroft-langreth" q := by
  have h2 : f q ^ 2 ≠ 0 := pow_ne_zero 2 hf
  simp [calc_structure_factor, calc_S_inf, mean_ff, meansq_ff, div_self h2]

/-- Concrete run of `single_element_fz_eq_al` with a constant intensity and
form factor. -/
theorem single_element_fz_eq_al_witness :
    calc_structure_factor (fun _ => 5) [((1 : ℚ), fun _ => 2)] 1
      "faber-ziman" 0
    = calc_structure_factor (fun _ => 5) [((1 : ℚ), fun _ => 2)] 1
      "ashcroft-langreth" 0 :=
  single_element_fz_eq_al (fun _ => 5) (fun _ => 2) 1 0 (by norm_num)
    (by norm_num)

/-- C4: the cosine-window modification function is exactly 1 strictly below
the window start, monotonically non-increasing on points at or above the
window start (up to Qmax), and takes values in the interval from 0 to 1
there. -/
theorem cosine_window_taper (window_start q_max q q1 q2 : ℝ)
    (hw : window_start < q_max) (hq : q < window_start)
    (h1 : window_start ≤ q1) (h12 : q1 ≤ q2) (h2 : q2 ≤ q_max) :
    get_mod_func_cosine_window window_start q_max q = 1
    ∧ get_mod_func_cosine_window window_start q_max q2
        ≤ get_mod_func_cosine_window window_start q_max q1
    ∧ 0 ≤ get_mod_func_cosine_window window_start q_max q1
    ∧ get_mod_func_cosine_window window_start q_max q1 ≤ 1
    ∧ 0 ≤ get_mod_func_cosine_window window_start q_max q2
    ∧ get_mod_func_cosine_window window_start q_max q2 ≤ 1 := by
  have hD : 0 < q_max - window_start := sub_pos.mpr hw
  have hn1 : ¬ q1 < window_start := not_lt.mpr h1
  have hn2 : ¬ q2 < window_start := not_lt.mpr (h1.trans h12)
  have e1 : get_mod_func_cosine_window window_start q_max q1
      = (1 + Real.cos (Real.pi * (q1 - window_start) / (q_max - window_start))) / 2 := by
    rw [get_mod_func_cosine_window, if_neg hn1]
  have e2 : get_mod_func_cosine_window window_start q_max q2
      = (1 + Real.cos (Real.pi * (q2 - window_start) / (q_max - window_start))) / 2 := by
    rw [get_mod_func_cosine_window, if_neg hn2]
  have hpi := Real.pi_pos
  have h0t1 : 0 ≤ Real.pi * (q1 - window_start) / (q_max - window_start) :=
    div_nonneg (mul_nonneg hpi.le (sub_nonneg.mpr h1)) hD.le
  have ht12 : Real.pi * (q1 - window_start) / (q_max - window_start)
      ≤ Real.pi * (q2 - window_start) / (q_max - window_start) := by
    gcongr
  have ht2pi : Real.pi * (q2 - window_start) / (q_max - window_start)
      ≤ Real.pi := by
    rw [div_le_iff₀ hD]
    have : q2 - window_start ≤ q_max - window_start := by linarith
    exact mul_le_mul_of_nonneg_left this hpi.le
  have hcos := Real.cos_le_cos_of_nonneg_of_le_pi h0t1 ht2pi ht12
  have hc1l := Real.neg_one_le_cos
    (Real.pi * (q1 - window_start) / (q_max - window_start))
  have hc1u := Real.cos_le_one
    (Real.pi * (q1 - window_start) / (q_max - window_start))
  have hc2l := Real.neg_one_le_cos
    (Real.pi * (q2 - window_start) / (q_max - window_start))
  have hc2u := Real.cos_le_one
    (Real.pi * (q2 - window_start) / (q_max - window_start))
  refine ⟨by rw [get_mod_func_cosine_window, if_pos hq], ?_, ?_, ?_, ?_, ?_⟩
  · rw [e1, e2]; linarith
  · rw [e1]; linarith
  · rw [e1]; linarith
  · rw [e2]; linarith
  · rw [e2]; linarith

/-- Concrete run of `cosine_window_taper` with window start 0, Qmax 1, a
point below the window and two tapered points. -/
theorem cosine_window_taper_witness :
    get_mod_func_cosine_window 0 1 (-1) = 1
    ∧ get_mod_func_cosine_window 0 1 1 ≤ get_mod_func_cosine_window 0 1 (1/2)
    ∧ 0 ≤ get_mod_func_cosine_window 0 1 (1/2)
    ∧ get_mod_func_cosine_window 0 1 (1/2) ≤ 1
    ∧ 0 ≤ get_mod_func_cosine_window 0 1 1
    ∧ get_mod_func_cosine_window 0 1 1 ≤ 1 :=
  cosine_window_taper 0 1 (-1) (1/2) 1 (by norm_num) (by norm_num)
    (by norm_num) (by norm_num) (by norm_num)

/-- Helper: a dictionary update keeps every stored amount positive when the
stored amounts and the inserted amount are positive. -/
theorem dict_update_pos (d : List CompositionEntry) (e : CompositionEntry)
    (hd : ∀ x ∈ d, 0 < x.2.2.2) (he : 0 < e.2.2.2) :
    ∀ x ∈ dict_update d e, 0 < x.2.2.2 := by
  intro x hx
  unfold dict_update at hx
  split at hx
  · rcases List.mem_map.mp hx with ⟨y, hy, rfl⟩
    by_cases hk : y.1 = e.1
    · simpa [hk] using he
    · simpa [hk] using hd y hy
  · rcases List.mem_append.mp hx with h | h
    · exact hd x h
    · rcases List.mem_singleton.mp h with rfl
      exact he

/-- Helper: a dictionary update never produces an empty dictionary. -/
theorem dict_update_ne_nil (d : List CompositionEntry) (e : CompositionEntry) :
    dict_update d e ≠ [] := by
  unfold dict_update
  split
  · rename_i hany
    intro hc
    rw [List.map_eq_nil_iff] at hc
    subst hc
    simp at hany
  · simp

/-- Helper: folding the composition rows into the dictionary keeps all
amounts positive. -/
theorem foldl_dict_update_pos (keyOfZ : ℤ → String)
    (rows : List (ℤ × ℤ × ℚ)) :
    ∀ d : List CompositionEntry, (∀ x ∈ d, 0 < x.2.2.2) →
      (∀ r ∈ rows, 0 < r.2.2) →
      ∀ x ∈ rows.foldl
        (fun d r => dict_update d (keyOfZ r.1, r.1, r.2.1, r.2.2)) d,
        0 < x.2.2.2 := by
  induction rows with
  | nil =>
    intro d hd _ x hx
    exact hd x (by simpa using hx)
  | cons r rs ih =>
    intro d hd hr x hx
    simp only [List.foldl_cons] at hx
    refine ih _ (dict_update_pos d _ hd ?_)
      (fun r' h => hr r' (List.mem_cons_of_mem _ h)) x hx
    exact hr r (List.mem_cons_self _ _)

/-- Helper: the folded dictionary is non-empty when the rows (or the initial
dictionary) are. -/
theorem foldl_dict_update_ne_nil (keyOfZ : ℤ → String)
    (rows : List (ℤ × ℤ × ℚ)) :
    ∀ d : List CompositionEntry, d ≠ [] ∨ rows ≠ [] →
      rows.foldl (fun d r => dict_update d (keyOfZ r.1, r.1, r.2.1, r.2.2)) d
        ≠ [] := by
  induction rows with
  | nil =>
    intro d h
    simpa using h.resolve_right (by simp)
  | cons r rs ih =>
    intro d _
    simp only [List.foldl_cons]
    exact ih _ (Or.inl (dict_update_ne_nil _ _))

/-- Helper: dividing every stored amount by a constant divides the sum of
the amounts. -/
theorem sum_map_entry_div (d : List CompositionEntry) (c : ℚ) :
    (d.map (fun e => e.2.2.2 / c)).sum = (d.map (fun e => e.2.2.2)).sum / c := by
  induction d with
  | nil => simp
  | cons a t ih => simp [ih, add_div]

/-- C5: the composition mapping built from a non-empty table with positive
per-element amounts has fractional proportions summing to exactly 1. -/
theorem composition_proportions_sum_one (keyOfZ : ℤ → String)
    (rows : List (ℤ × ℤ × ℚ)) (hne : rows ≠ [])
    (hpos : ∀ r ∈ rows, 0 < r.2.2) :
    ((get_composition_dict keyOfZ rows).map (fun e => e.2.2.2)).sum = 1 := by
  have hposd : ∀ x ∈ rows.foldl
      (fun d r => dict_update d (keyOfZ r.1, r.1, r.2.1, r.2.2)) [],
      0 < x.2.2.2 :=
    foldl_dict_update_pos keyOfZ rows [] (by simp) hpos
  have hdne : rows.foldl
      (fun d r => dict_update d (keyOfZ r.1, r.1, r.2.1, r.2.2)) [] ≠ [] :=
    foldl_dict_update_ne_nil keyOfZ rows [] (Or.inr hne)
  have hsum : 0 < ((rows.foldl
      (fun d r => dict_update d (keyOfZ r.1, r.1, r.2.1, r.2.2)) []).map
      (fun e => e.2.2.2)).sum := by
    apply List.sum_pos
    · intro x hx
      rcases List.mem_map.mp hx with ⟨y, hy, rfl⟩
      exact hposd y hy
    · simpa using hdne
  unfold get_composition_dict
  rw [List.map_map]
  have hc : ((fun e : CompositionEntry => e.2.2.2) ∘
      (fun e : CompositionEntry => (e.1, e.2.1, e.2.2.1, e.2.2.2 /
        ((rows.foldl
          (fun d r => dict_update d (keyOfZ r.1, r.1, r.2.1, r.2.2)) []).map
          (fun e => e.2.2.2)).sum)))
      = fun e : CompositionEntry => e.2.2.2 /
        ((rows.foldl
          (fun d r => dict_update d (keyOfZ r.1, r.1, r.2.1, r.2.2)) []).map
          (fun e => e.2.2.2)).sum := rfl
  rw [hc, sum_map_entry_div, div_self (ne_of_gt hsum)]

/-- Concrete run of `composition_proportions_sum_one` on a one-row gallium
table with amount 2. -/
theorem composition_proportions_sum_one_witness :
    ((get_composition_dict (fun _ => "Ga") [((31 : ℤ), (0 : ℤ), (2 : ℚ))]).map
      (fun e => e.2.2.2)).sum = 1 :=
  composition_proportions_sum_one (fun _ => "Ga") [((31 : ℤ), (0 : ℤ), (2 : ℚ))]
    (by decide) (by decide)

/-- Helper: indexing a mapped zip of two lists at a valid position. -/
theorem getD_map_zip (g : ℚ × ℚ → ℚ) :
    ∀ (x y : List ℚ) (i : ℕ), i < x.length → x.length ≤ y.length →
      ((x.zip y).map g).getD i 0 = g (x.getD i 0, y.getD i 0) := by
  intro x
  induction x with
  | nil =>
    intro y i hi _
    exact absurd hi (by simp)
  | cons a xs ih =>
    intro y i hi hlen
    cases y with
    | nil => simp at hlen
    | cons b ys =>
      cases i with
      | zero => simp
      | succ n =>
        simp only [List.zip_cons_cons, List.map_cons, List.getD_cons_succ]
        exact ih ys n (by simpa using hi) (by simpa using hlen)

/-- Helper: for a sorted Q list, left-padding the retained intensities with a
fill value up to the original length is the same as mapping each (Q, I) pair
to its intensity when Q is retained and to the fill value otherwise. -/
theorem pad_cut_eq_map (q f : ℚ) :
    ∀ (x y : List ℚ), x.Pairwise (· ≤ ·) → x.length ≤ y.length →
      List.replicate (x.length -
          (((x.zip y).filter (fun p => decide (q < p.1))).map Prod.snd).length) f
        ++ ((x.zip y).filter (fun p => decide (q < p.1))).map Prod.snd
      = (x.zip y).map (fun p => if q < p.1 then p.2 else f) := by
  intro x
  induction x with
  | nil =>
    intro y _ _
    simp
  | cons a xs ih =>
    intro y hsort hlen
    cases y with
    | nil => simp at hlen
    | cons b ys =>
      rcases List.pairwise_cons.mp hsort with ⟨ha, hp⟩
      by_cases hqa : q < a
      · have hall : ∀ p ∈ (a :: xs).zip (b :: ys), decide (q < p.1) = true := by
          intro p hmem
          have h1 : p.1 ∈ a :: xs := (List.of_mem_zip hmem).1
          rcases List.mem_cons.mp h1 with h | h
          · rw [h]
            exact decide_eq_true hqa
          · exact decide_eq_true (hqa.trans_le (ha _ h))
        rw [List.filter_eq_self.mpr hall]
        have hlz : ((a :: xs).zip (b :: ys)).length = (a :: xs).length := by
          rw [List.length_zip]
          omega
        rw [List.length_map, hlz, Nat.sub_self, List.replicate_zero,
          List.nil_append]
        apply List.map_congr_left
        intro p hmem
        rw [if_pos (of_decide_eq_true (hall p hmem))]
      · have hd : decide (q < a) = false := decide_eq_false hqa
        have hlen' : xs.length ≤ ys.length := by simpa using hlen
        have hcutlen :
            (((xs.zip ys).filter (fun p => decide (q < p.1))).map Prod.snd).length
              ≤ xs.length := by
          rw [List.length_map]
          calc ((xs.zip ys).filter (fun p => decide (q < p.1))).length
              ≤ (xs.zip ys).length := List.length_filter_le _ _
            _ ≤ xs.length := by rw [List.length_zip]; omega
        simp only [List.zip_cons_cons, List.filter_cons, hd, Bool.false_eq_true,
          if_false, List.map_cons, if_neg hqa, List.length_cons]
        rw [show xs.length + 1 -
            (((xs.zip ys).filter (fun p => decide (q < p.1))).map Prod.snd).length
            = (xs.length -
              (((xs.zip ys).filter (fun p => decide (q < p.1))).map Prod.snd).length)
              + 1 from by omega]
        rw [List.replicate_succ, List.cons_append, ih ys hp hlen']

/-- C3: for a sorted cut Q array with at least one entry above the q-min
cutoff, the q-min cut produces an intensity array of the same length as the
Q array, keeps every intensity at Q strictly above q-min unchanged, and
replaces every entry at Q not above q-min by the first retained intensity
value. -/
theorem qmin_cut_spec (x y : List ℚ) (q : ℚ)
    (hsort : x.Pairwise (· ≤ ·)) (hlen : x.length ≤ y.length)
    (hex : ∃ a ∈ x, q < a) :
    ∃ r, qmin_cut x y q = some r
      ∧ r.length = x.length
      ∧ ∀ i, i < x.length →
        (q < x.getD i 0 → r.getD i 0 = y.getD i 0)
        ∧ (x.getD i 0 ≤ q →
            r.getD i 0 = y.getD (x.findIdx (fun v => decide (q < v))) 0) := by
  have hne : x ≠ [] := by
    rcases hex with ⟨a, ha, _⟩
    exact List.ne_nil_of_mem ha
  have hany : x.any (fun v => decide (q < v)) = true := by
    rw [List.any_eq_true]
    rcases hex with ⟨a, ha, hqa⟩
    exact ⟨a, ha, decide_eq_true hqa⟩
  have hargmax : np_argmax_gt x q
      = some (x.findIdx (fun v => decide (q < v))) := by
    unfold np_argmax_gt
    rw [if_neg (by simpa [List.isEmpty_iff] using hne), hany, if_pos rfl]
  have hqeq : qmin_cut x y q = some (List.replicate (x.length -
      (((x.zip y).filter (fun p => decide (q < p.1))).map Prod.snd).length)
        (y.getD (x.findIdx (fun v => decide (q < v))) 0)
      ++ ((x.zip y).filter (fun p => decide (q < p.1))).map Prod.snd) := by
    unfold qmin_cut
    rw [hargmax]
  rw [pad_cut_eq_map q (y.getD (x.findIdx (fun v => decide (q < v))) 0) x y
    hsort hlen] at hqeq
  refine ⟨_, hqeq, ?_, ?_⟩
  · rw [List.length_map, List.length_zip]
    omega
  · intro i hi
    have hgot := getD_map_zip
      (fun p => if q < p.1 then p.2
        else y.getD (x.findIdx (fun v => decide (q < v))) 0) x y i hi hlen
    constructor
    · intro hqi
      rw [hgot]
      show (if q < x.getD i 0 then y.getD i 0
        else y.getD (List.findIdx (fun v => decide (q < v)) x) 0) = y.getD i 0
      rw [if_pos hqi]
    · intro hqi
      rw [hgot]
      show (if q < x.getD i 0 then y.getD i 0
        else y.getD (List.findIdx (fun v => decide (q < v)) x) 0)
        = y.getD (List.findIdx (fun v => decide (q < v)) x) 0
      rw [if_neg (not_lt.mpr hqi)]

/-- Concrete run of `qmin_cut_spec`: Q array `[0, 1, 2]`, intensities
`[10, 20, 30]`, cutoff 0. -/
theorem qmin_cut_spec_witness :
    ∃ r, qmin_cut [(0 : ℚ), 1, 2] [10, 20, 30] 0 = some r
      ∧ r.length = [(0 : ℚ), 1, 2].length
      ∧ ∀ i, i < [(0 : ℚ), 1, 2].length →
        ((0 : ℚ) < [(0 : ℚ), 1, 2].getD i 0 →
          r.getD i 0 = [(10 : ℚ), 20, 30].getD i 0)
        ∧ ([(0 : ℚ), 1, 2].getD i 0 ≤ 0 →
            r.getD i 0 = [(10 : ℚ), 20, 30].getD
              ([(0 : ℚ), 1, 2].findIdx (fun v => decide ((0 : ℚ) < v))) 0) :=
  qmin_cut_spec [(0 : ℚ), 1, 2] [10, 20, 30] 0 (by decide) (by decide)
    (by decide)

end LiquidCalc
